import Mathlib

/-!
Shallow embedding of the I2C motor/encoder protocol layer of the
PitchMaster senior-design repository (files motor_control.py and
encoder_control.py).

Modelling conventions: bytes are natural numbers, Python byte lists are
`List ℕ`, Python ints are `ℤ`, Python floats are `ℚ` (exact arithmetic),
and exceptions are explicit outcome constructors.  Bus traffic goes
through an abstract `Bus` record; the source DummyBus emulator is one
instance, and script / oracle buses are used to state properties over
arbitrary peripheral behaviour.  IEEE-754 float payloads are represented
by their 32-bit little-endian bit pattern, which determines the decoded
float exactly.  Each driver function also returns the list of bus writes
it performed, so that properties about frames sent can be stated.
-/

-- ### Byte-level helpers

/-- Little-endian byte list of a signed 32-bit integer, as struct.pack
with format <i produces it (two-s complement). -/
def int32LE (v : ℤ) : List ℕ :=
  let w := (v % 2 ^ 32).toNat
  [w % 256, w / 2 ^ 8 % 256, w / 2 ^ 16 % 256, w / 2 ^ 24 % 256]

/-- Little-endian byte list of an unsigned 32-bit integer (struct.pack
with format <I). -/
def uint32LE (v : ℕ) : List ℕ :=
  [v % 256, v / 2 ^ 8 % 256, v / 2 ^ 16 % 256, v / 2 ^ 24 % 256]

/-- Assemble four little-endian bytes into a 32-bit word. -/
def leWord32 (b0 b1 b2 b3 : ℕ) : ℕ :=
  b0 + b1 * 2 ^ 8 + b2 * 2 ^ 16 + b3 * 2 ^ 24

/-- Two-s-complement reading of a 32-bit word (struct.unpack with
format <i). -/
def toSigned32 (w : ℕ) : ℤ :=
  if w < 2 ^ 31 then (w : ℤ) else (w : ℤ) - 2 ^ 32

/-- Decode a byte string into consecutive little-endian signed 32-bit
integers, as struct.unpack with a repeated-i format does. -/
def bytesToInt32s : List ℕ → List ℤ
  | b0 :: b1 :: b2 :: b3 :: rest => toSigned32 (leWord32 b0 b1 b2 b3) :: bytesToInt32s rest
  | _ => []

/-- Rounding rule of the Python built-in round: nearest integer, ties to
the even neighbour. -/
def pyRound (q : ℚ) : ℤ :=
  if q - ⌊q⌋ < 1 / 2 then ⌊q⌋
  else if (1 : ℚ) / 2 < q - ⌊q⌋ then ⌊q⌋ + 1
  else if Even ⌊q⌋ then ⌊q⌋ else ⌊q⌋ + 1

/-- IEEE-754 single-precision bit pattern of the real number n / 4, for
n below 2 ^ 24 (where the value is exactly representable).  Used by the
DummyBus HLFB chunk response, which packs float(offset) / 4.0. -/
def float32BitsOfQuarter (n : ℕ) : ℕ :=
  if n = 0 then 0
  else (Nat.log2 n + 125) * 2 ^ 23 + (n - 2 ^ Nat.log2 n) * 2 ^ (23 - Nat.log2 n)

-- ### Abstract bus transport

/-- One bus write: (address, register, data bytes). -/
abbrev BusWrite := ℕ × ℕ × List ℕ

/-- Abstract I2C transport: a state type with the two smbus2 primitives
used by the drivers.  Reads may update the state (a script bus consumes
its list of canned responses); writes return the new state. -/
structure Bus (σ : Type) where
  write_i2c_block_data : σ → ℕ → ℕ → List ℕ → σ
  read_i2c_block_data : σ → ℕ → ℕ → ℕ → List ℕ × σ

/-- Script bus: replies with a fixed list of canned responses, in order,
ignoring writes.  Used to model specific peripheral behaviours. -/
def scriptBus : Bus (List (List ℕ)) where
  write_i2c_block_data := fun s _ _ _ => s
  read_i2c_block_data := fun s _ _ _ => (s.headD [], s.tail)

/-- Oracle bus: remembers the last write and replies with an arbitrary
function of it, like the DummyBus does.  Used to quantify over all
request-determined peripheral behaviours. -/
def funBus (f : BusWrite → List ℕ) : Bus (Option BusWrite) where
  write_i2c_block_data := fun _ a r d => some (a, r, d)
  read_i2c_block_data := fun s _ _ _ =>
    (match s with
     | some w => f w
     | none => [], s)

-- ### Protocol constants (motor_control.py and encoder_control.py)

def I2C_PICO_ADDR : ℕ := 0x50
def CMD_START_SEQUENCE : ℕ := 1
def CMD_STOP_SEQUENCE : ℕ := 2
def CMD_RECORD_HLFB : ℕ := 3
def CMD_READ_HLFB_CHUNK : ℕ := 4
def CMD_EMERGENCY_STOP : ℕ := 5
def STATUS_MOTOR_RUNNING : ℕ := 0x11
def STATUS_MOTOR_STOPPED : ℕ := 0x12
def STATUS_HLFB_RECORDED : ℕ := 0x13
def STATUS_HLFB_CAPTURING : ℕ := 0x14
def STATUS_HLFB_DATA_CHUNK : ℕ := 0x15
def STATUS_ERROR : ℕ := 0xFF
def I2C_BUFFER_SIZE : ℕ := 6

def PICO2_ADDR : ℕ := 0x60
def CMD_RECORD : ℕ := 0x21
def CMD_READ_CHUNK : ℕ := 0x22
def CMD_SINGLE_SHOT : ℕ := 0x23
def STATUS_ENCODER_IDLE : ℕ := 0x31
def STATUS_CAPTURING : ℕ := 0x32
def STATUS_READY : ℕ := 0x33
def STATUS_CHUNK : ℕ := 0x34
def STATUS_SINGLE_SHOT_READY : ℕ := 0x35

-- ### DummyBus emulator (motor_control.py, class DummyBus)

/-- State of the DummyBus emulator: the last write per emulated address
(0x50 motor Pico, 0x60 encoder Pico2) and the per-address memory, which
the source only ever populates for 0x60. -/
structure DummyBus where
  last50 : Option (ℕ × List ℕ)
  last60 : Option (ℕ × List ℕ)
  mem60 : List ℕ
deriving DecidableEq

/-- Fresh DummyBus: empty last-write dict and empty memory dict. -/
def DummyBus.init : DummyBus := ⟨none, none, []⟩

/-- The fixed internal encoder sample table prepared in the DummyBus
constructor: i * 10 for i in range(200). -/
def dummyEncoderSamples : List ℤ := (List.range 200).map fun i => (i : ℤ) * 10

/-- DummyBus.write_i2c_block_data: store the last write for the address;
if writing CMD_RECORD to the Pico2 address, populate its memory with the
requested number of packed signed 32-bit samples from the table (a
sample count byte of 0 falls back to 200 via the Python or-expression). -/
def DummyBus.write_i2c_block_data (s : DummyBus) (addr reg : ℕ) (data : List ℕ) : DummyBus :=
  let s1 : DummyBus :=
    if addr = 0x50 then { s with last50 := some (reg, data) }
    else if addr = 0x60 then { s with last60 := some (reg, data) }
    else s
  if addr = 0x60 ∧ 2 ≤ data.length ∧ data.headD 0 = CMD_RECORD then
    let samples := if data.getD 1 0 = 0 then 200 else data.getD 1 0
    let b := ((List.range samples).map fun i =>
      int32LE (dummyEncoderSamples.getD (i % dummyEncoderSamples.length) 0)).flatten
    { s1 with mem60 := b }
  else s1

/-- DummyBus.read_i2c_block_data, encoder (0x60) arm: branch on the
command byte of the last write; otherwise try to recognise a chunk
request of the shape payload = [CMD_READ_CHUNK, lsb, msb] (at least 3
payload bytes with first byte 0x22); otherwise report idle. -/
def DummyBus.read60 (s : DummyBus) (length : ℕ) : List ℕ :=
  let chunkOrDefault : List ℕ :=
    match s.last60 with
    | some (_, payload) =>
      if 3 ≤ payload.length ∧ payload.headD 0 = CMD_READ_CHUNK then
        let offset := payload.getD 1 0 ||| (payload.getD 2 0 <<< 8)
        let chunk := (s.mem60.drop offset).take 4
        let chunk := if chunk.length < 4 then chunk ++ List.replicate (4 - chunk.length) 0
          else chunk
        ([STATUS_CHUNK] ++ chunk ++ [0]).take length
      else ([STATUS_ENCODER_IDLE, 0, 0, 0, 0, 0]).take length
    | none => ([STATUS_ENCODER_IDLE, 0, 0, 0, 0, 0]).take length
  match s.last60 with
  | some (_, data) =>
    let cmd := data.headD 0
    if cmd = CMD_SINGLE_SHOT then
      ([STATUS_SINGLE_SHOT_READY] ++ uint32LE 123456).take length
    else if cmd = CMD_RECORD then
      let total_bytes := s.mem60.length
      ([STATUS_READY, total_bytes &&& 0xFF, (total_bytes >>> 8) &&& 0xFF, 0, 0, 0]).take length
    else chunkOrDefault
  | none => chunkOrDefault

/-- DummyBus.read_i2c_block_data, motor (0x50) arm: branch on the
command byte of the last write, defaulting to the idle motor-stopped
status. -/
def DummyBus.read50 (s : DummyBus) (length : ℕ) : List ℕ :=
  match s.last50 with
  | some (_, data) =>
    let cmd := data.headD 0
    if cmd = CMD_RECORD_HLFB then
      let num := if 1 < data.length then data.getD 1 0 else 10
      let total_bytes := num * 4
      ([STATUS_HLFB_RECORDED, num, total_bytes &&& 0xFF, (total_bytes >>> 8) &&& 0xFF, 0, 0]).take
        length
    else if cmd = CMD_READ_HLFB_CHUNK then
      let offset := data.getD 1 0 ||| (data.getD 2 0 <<< 8)
      ([STATUS_HLFB_DATA_CHUNK] ++ uint32LE (float32BitsOfQuarter offset) ++ [0]).take length
    else if cmd = CMD_EMERGENCY_STOP then
      ([STATUS_MOTOR_STOPPED, 0, 0, 0, 0, 0]).take length
    else if cmd = CMD_START_SEQUENCE then
      ([STATUS_MOTOR_RUNNING, (1234 >>> 8) &&& 0xFF, 1234 &&& 0xFF, 0, 0, 0]).take length
    else ([STATUS_MOTOR_STOPPED, 0, 0, 0, 0, 0]).take length
  | none => ([STATUS_MOTOR_STOPPED, 0, 0, 0, 0, 0]).take length

/-- DummyBus.read_i2c_block_data: dispatch on the emulated address,
returning zeros for unknown addresses. -/
def DummyBus.read_i2c_block_data (s : DummyBus) (addr _reg length : ℕ) : List ℕ :=
  if addr = 0x50 then s.read50 length
  else if addr = 0x60 then s.read60 length
  else List.replicate length 0

/-- The DummyBus packaged as an abstract Bus instance (its reads do not
change the emulator state). -/
def dummyBus : Bus DummyBus where
  write_i2c_block_data := DummyBus.write_i2c_block_data
  read_i2c_block_data := fun s a r l => (s.read_i2c_block_data a r l, s)

-- ### Encoder driver (encoder_control.py)

/-- Outcome of arm_encoder: a returned boolean, or an uncaught
ValueError escaping from the byte assignment buf[1] = samples (the
except clause catches only OSError). -/
inductive ArmOutcome
  | ok (b : Bool)
  | valueError
deriving DecidableEq

/-- Result of arm_encoder together with the writes it performed and the
final bus state. -/
structure ArmResult (σ : Type) where
  outcome : ArmOutcome
  writes : List BusWrite
  state : σ

/-- arm_encoder with an explicitly supplied sample count: builds the
6-byte buffer [CMD_RECORD, samples, 0, 0, 0, 0] and sends it.  The
Python assignment buf[1] = samples raises ValueError for values outside
the byte range [0, 255]; that exception is not an OSError, so it
escapes before any bus write happens. -/
def arm_encoder {σ : Type} (B : Bus σ) (s : σ) (samples : ℤ) : ArmResult σ :=
  if 0 ≤ samples ∧ samples ≤ 255 then
    let buf := [CMD_RECORD, samples.toNat, 0, 0, 0, 0]
    let s1 := B.write_i2c_block_data s PICO2_ADDR 0 buf
    ⟨.ok true, [(PICO2_ADDR, 0, buf)], s1⟩
  else ⟨.valueError, [], s⟩

/-- Result of a chunk-download loop: the accumulated payload (raw bytes
for the encoder loop), the offset reported in the chunk-error message if
one was printed, the offset value when the loop stopped, the chunk
requests written, and the final bus state. -/
structure ChunkOut (σ : Type) where
  collected : List ℕ
  err : Option ℕ
  finalOffset : ℕ
  writes : List BusWrite
  state : σ

/-- One-step body of the chunk loop of read_encoder_data, recursing on
an iteration counter so that it is structurally recursive (the while
loop advances offset by 4 per iteration, so any counter with
total ≤ offset + 4 * n runs the loop to completion; see
encChunkLoopAux_fuel and encChunkLoop_step). -/
def encChunkLoopAux {σ : Type} (B : Bus σ) (total : ℕ) : ℕ → ℕ → σ → ChunkOut σ
  | 0, offset, s => ⟨[], none, offset, [], s⟩
  | n + 1, offset, s =>
    if offset < total then
      let lsb := offset &&& 0xFF
      let msb := (offset >>> 8) &&& 0xFF
      let s1 := B.write_i2c_block_data s PICO2_ADDR CMD_READ_CHUNK [lsb, msb]
      let rd := B.read_i2c_block_data s1 PICO2_ADDR 0 6
      let chunk_block := rd.1
      if chunk_block.headD 0 = STATUS_CHUNK then
        let rest := encChunkLoopAux B total n (offset + 4) rd.2
        { rest with
          collected := (chunk_block.drop 1).take 4 ++ rest.collected,
          writes := (PICO2_ADDR, CMD_READ_CHUNK, [lsb, msb]) :: rest.writes }
      else ⟨[], some offset, offset, [(PICO2_ADDR, CMD_READ_CHUNK, [lsb, msb])], rd.2⟩
    else ⟨[], none, offset, [], s⟩

/-- The chunk loop of read_encoder_data: while offset is below
total_bytes, write the request [lsb, msb] under register CMD_READ_CHUNK,
read a 6-byte response, and on STATUS_CHUNK append response bytes 1 to 4
and advance offset by 4; on any other status print the offset and
break.  The counter total + 1 always suffices (the loop does at most
total / 4 + 1 condition checks). -/
def encChunkLoop {σ : Type} (B : Bus σ) (total offset : ℕ) (s : σ) : ChunkOut σ :=
  encChunkLoopAux B total (total + 1) offset s

/-- Return value of read_encoder_data: the list produced by
struct.unpack, or an uncaught struct.error when the accumulated byte
count is not a multiple of 4 (possible only for malformed short
responses). -/
inductive EncValues
  | list (l : List ℤ)
  | structError
deriving DecidableEq

/-- Result of read_encoder_data with the writes it performed and the
final bus state. -/
structure EncResult (σ : Type) where
  values : EncValues
  chunkErr : Option ℕ
  writes : List BusWrite
  state : σ

/-- read_encoder_data: read a status frame; on STATUS_CAPTURING return
an empty list; on STATUS_READY assemble total_bytes from payload bytes 1
and 2 (low byte first), run the chunk loop from offset 0, and unpack
whatever bytes were collected into signed 32-bit integers; on any other
status return an empty list. -/
def read_encoder_data {σ : Type} (B : Bus σ) (s : σ) : EncResult σ :=
  let rd := B.read_i2c_block_data s PICO2_ADDR 0 6
  let status_block := rd.1
  let status := status_block.headD 0
  if status = STATUS_CAPTURING then ⟨.list [], none, [], rd.2⟩
  else if status = STATUS_READY then
    let total_bytes := status_block.getD 1 0 ||| (status_block.getD 2 0 <<< 8)
    let out := encChunkLoop B total_bytes 0 rd.2
    let vals := if out.collected.length % 4 = 0 then EncValues.list (bytesToInt32s out.collected)
      else EncValues.structError
    ⟨vals, out.err, out.writes, out.state⟩
  else ⟨.list [], none, [], rd.2⟩

-- ### Motor / HLFB driver (motor_control.py)

/-- Action taken by one iteration of the HLFB poll loop on a status
byte, following the if/elif chain in capture_and_read_hlfb: CAPTURING
waits and retries; RECORDED breaks out successfully; ERROR returns;
a status equal to CMD_RECORD_HLFB (3) waits and retries; anything else
returns. -/
inductive PollAct
  | wait
  | success
  | abort
deriving DecidableEq

/-- Classification of a status byte by the HLFB poll loop, transcribed
from the branch structure of the while loop in capture_and_read_hlfb. -/
def hlfbPollAct (status : ℕ) : PollAct :=
  if status = STATUS_HLFB_CAPTURING then .wait
  else if status = STATUS_HLFB_RECORDED then .success
  else if status = STATUS_ERROR then .abort
  else if status = CMD_RECORD_HLFB then .wait
  else .abort

/-- Result of the HLFB poll loop: the final RECORDED status buffer, an
abort (error or unexpected status), or fuel exhaustion standing for an
unbounded wait. -/
inductive PollRes
  | recorded (sb : List ℕ)
  | abort
  | fuelOut
deriving DecidableEq

/-- The unbounded while loop of capture_and_read_hlfb, with explicit
fuel: read a status frame and act on its first byte per hlfbPollAct. -/
def hlfbPoll {σ : Type} (B : Bus σ) : ℕ → σ → PollRes × σ
  | 0, s => (.fuelOut, s)
  | fuel + 1, s =>
    let rd := B.read_i2c_block_data s I2C_PICO_ADDR 0 I2C_BUFFER_SIZE
    match hlfbPollAct (rd.1.headD 0) with
    | .success => (.recorded rd.1, rd.2)
    | .abort => (.abort, rd.2)
    | .wait => hlfbPoll B fuel rd.2

/-- Result of the HLFB chunk loop: decoded 32-bit float words (bit
patterns of the little-endian floats unpacked from payload bytes 1 to
4), plus the same bookkeeping as ChunkOut. -/
structure HChunkOut (σ : Type) where
  results : List ℕ
  err : Option ℕ
  finalOffset : ℕ
  writes : List BusWrite
  state : σ

/-- One-step body of the chunk loop of capture_and_read_hlfb, recursing
on an iteration counter so that it is structurally recursive (see
hlfbChunkLoopAux_fuel and hlfbChunkLoop_step). -/
def hlfbChunkLoopAux {σ : Type} (B : Bus σ) (total : ℕ) : ℕ → ℕ → σ → HChunkOut σ
  | 0, offset, s => ⟨[], none, offset, [], s⟩
  | n + 1, offset, s =>
    if offset < total then
      let cmd_buf := [CMD_READ_HLFB_CHUNK, offset &&& 0xFF, (offset >>> 8) &&& 0xFF, 0, 0, 0]
      let s1 := B.write_i2c_block_data s I2C_PICO_ADDR 0 cmd_buf
      let rd := B.read_i2c_block_data s1 I2C_PICO_ADDR 0 I2C_BUFFER_SIZE
      let data_buf := rd.1
      if data_buf.headD 0 = STATUS_HLFB_DATA_CHUNK then
        let val := leWord32 (data_buf.getD 1 0) (data_buf.getD 2 0) (data_buf.getD 3 0)
          (data_buf.getD 4 0)
        let rest := hlfbChunkLoopAux B total n (offset + 4) rd.2
        { rest with
          results := val :: rest.results,
          writes := (I2C_PICO_ADDR, 0, cmd_buf) :: rest.writes }
      else ⟨[], some offset, offset, [(I2C_PICO_ADDR, 0, cmd_buf)], rd.2⟩
    else ⟨[], none, offset, [], s⟩

/-- The chunk loop of capture_and_read_hlfb: for offset in
range(0, total_bytes, 4), send [CMD_READ_HLFB_CHUNK, lsb, msb, 0, 0, 0],
read a 6-byte response; on STATUS_HLFB_DATA_CHUNK unpack the
little-endian float from bytes 1 to 4 and append it; otherwise print the
offset and break. -/
def hlfbChunkLoop {σ : Type} (B : Bus σ) (total offset : ℕ) (s : σ) : HChunkOut σ :=
  hlfbChunkLoopAux B total (total + 1) offset s

/-- Return value of capture_and_read_hlfb: the results list (possibly
partial after a chunk error), or the Python None return from the
range rejection, from an aborted poll, or from a zero byte count; or
fuel exhaustion of the unbounded poll loop. -/
inductive HlfbOutcome
  | samples (l : List ℕ)
  | rejected
  | aborted
  | fuelOut
deriving DecidableEq

/-- Result of capture_and_read_hlfb with the writes it performed and
the final bus state. -/
structure HlfbResult (σ : Type) where
  outcome : HlfbOutcome
  chunkErr : Option ℕ
  writes : List BusWrite
  state : σ

/-- capture_and_read_hlfb: reject sample counts outside [1, 255] before
any bus write; send the RECORD_HLFB frame; poll until a terminal status;
on RECORDED assemble total_bytes from status bytes 2 and 3 (low byte
first), abort when it is zero, otherwise run the chunk loop and return
its (possibly partial) results. -/
def capture_and_read_hlfb {σ : Type} (B : Bus σ) (fuel : ℕ) (s : σ) (num_samples : ℤ) :
    HlfbResult σ :=
  if 1 ≤ num_samples ∧ num_samples ≤ 255 then
    let buf := [CMD_RECORD_HLFB, num_samples.toNat, 0, 0, 0, 0]
    let s1 := B.write_i2c_block_data s I2C_PICO_ADDR 0 buf
    let w0 : BusWrite := (I2C_PICO_ADDR, 0, buf)
    match hlfbPoll B fuel s1 with
    | (.fuelOut, s2) => ⟨.fuelOut, none, [w0], s2⟩
    | (.abort, s2) => ⟨.aborted, none, [w0], s2⟩
    | (.recorded status_buf, s2) =>
      let total_bytes := status_buf.getD 2 0 ||| (status_buf.getD 3 0 <<< 8)
      if total_bytes = 0 then ⟨.aborted, none, [w0], s2⟩
      else
        let out := hlfbChunkLoop B total_bytes 0 s2
        ⟨.samples out.results, out.err, w0 :: out.writes, out.state⟩
  else ⟨.rejected, none, [], s⟩

/-- Return value of start_motor: the status buffer read back after a
successful send, a rejection (printed error, Python returns None), or a
caught exception (for example ZeroDivisionError when max_speed is 0). -/
inductive StartOutcome
  | completed (status_buf : List ℕ)
  | rejected
  | exception
deriving DecidableEq

/-- Result of start_motor with the writes it performed and the final
bus state. -/
structure StartResult (σ : Type) where
  outcome : StartOutcome
  writes : List BusWrite
  state : σ

/-- start_motor with all parameters supplied: validate ramp_multiplier
in [0, 255]; compute the duty cycle (operating_speed * 60 / max_speed)
and validate it lies in [0, 1]; scale by 65535 with Python round; map
the direction string (cw is 0, ccw is 1, anything else rejects); build
the frame [CMD_START_SEQUENCE, hi, lo, ramp, dir, 0] with the 16-bit
speed packed big-endian at offset 1; send it and read back a status
frame.  A zero max_speed raises ZeroDivisionError, caught by the generic
except clause before any write. -/
def start_motor {σ : Type} (B : Bus σ) (s : σ) (max_speed operating_speed : ℚ)
    (ramp_multiplier : ℤ) (direction_string : String) : StartResult σ :=
  if ¬(0 ≤ ramp_multiplier ∧ ramp_multiplier ≤ 255) then ⟨.rejected, [], s⟩
  else if max_speed = 0 then ⟨.exception, [], s⟩
  else
    let duty_cycle_float := operating_speed * 60 / max_speed
    if ¬((0 : ℚ) ≤ duty_cycle_float ∧ duty_cycle_float ≤ 1) then ⟨.rejected, [], s⟩
    else
      let cmd_speed16 := (pyRound (duty_cycle_float * 65535)).toNat
      let dir : Option ℕ :=
        if direction_string = "cw" then some 0
        else if direction_string = "ccw" then some 1
        else none
      match dir with
      | none => ⟨.rejected, [], s⟩
      | some direction =>
        let buf := [CMD_START_SEQUENCE, (cmd_speed16 >>> 8) &&& 0xFF, cmd_speed16 &&& 0xFF,
          ramp_multiplier.toNat, direction, 0]
        let s1 := B.write_i2c_block_data s I2C_PICO_ADDR 0 buf
        let rd := B.read_i2c_block_data s1 I2C_PICO_ADDR 0 I2C_BUFFER_SIZE
        ⟨.completed rd.1, [(I2C_PICO_ADDR, 0, buf)], rd.2⟩

/-- The clockwise direction string, for use in concrete theorems. -/
def dirCW : String := "cw"

/-- The encoder chunk request frame written for a given offset, as
read_encoder_data issues it (offset split little-endian into two bytes
under register CMD_READ_CHUNK). -/
def encChunkReq (offset : ℕ) : BusWrite :=
  (PICO2_ADDR, CMD_READ_CHUNK, [offset &&& 0xFF, (offset >>> 8) &&& 0xFF])

/-- The HLFB chunk request frame written for a given offset, as
capture_and_read_hlfb issues it. -/
def hlfbChunkReq (offset : ℕ) : BusWrite :=
  (I2C_PICO_ADDR, 0, [CMD_READ_HLFB_CHUNK, offset &&& 0xFF, (offset >>> 8) &&& 0xFF, 0, 0, 0])

/-- The READY status frame a peripheral would send to advertise a given
total byte count, low byte first (payload bytes 1 and 2). -/
def encReadyFrame (total : ℕ) : List ℕ :=
  [STATUS_READY, total &&& 0xFF, (total >>> 8) &&& 0xFF, 0, 0, 0]

/-- The 32-bit float word capture_and_read_hlfb decodes from a chunk
response: payload bytes 1 to 4, little-endian. -/
def hlfbChunkVal (blk : List ℕ) : ℕ :=
  leWord32 (blk.getD 1 0) (blk.getD 2 0) (blk.getD 3 0) (blk.getD 4 0)

/-- A concrete oracle peripheral used in witnesses: reports an HLFB
capture of 8 bytes and serves two well-formed data chunks. -/
def hlfbOracleTwo : BusWrite → List ℕ := fun w =>
  if w = (I2C_PICO_ADDR, 0, [CMD_RECORD_HLFB, 2, 0, 0, 0, 0]) then
    [STATUS_HLFB_RECORDED, 2, 8, 0, 0, 0]
  else if w = hlfbChunkReq 0 then [STATUS_HLFB_DATA_CHUNK, 1, 2, 3, 4, 0]
  else if w = hlfbChunkReq 4 then [STATUS_HLFB_DATA_CHUNK, 5, 6, 7, 8, 0]
  else [STATUS_ERROR, 0, 0, 0, 0, 0]

/-- A concrete oracle peripheral used in witnesses: serves well-formed
encoder chunks everywhere except offset 12, where it reports idle. -/
def encFailOracle : BusWrite → List ℕ := fun w =>
  if w = encChunkReq 12 then [STATUS_ENCODER_IDLE, 0, 0, 0, 0, 0]
  else [STATUS_CHUNK, 9, 9, 9, 9, 0]

/-- A concrete oracle peripheral used in witnesses: serves well-formed
HLFB chunks everywhere except offset 12, where it reports an error. -/
def hlfbFailOracle : BusWrite → List ℕ := fun w =>
  if w = hlfbChunkReq 12 then [STATUS_ERROR, 0, 0, 0, 0, 0]
  else [STATUS_HLFB_DATA_CHUNK, 9, 9, 9, 9, 0]

/-- A concrete oracle peripheral used in witnesses: advertises 8 bytes
of encoder data but serves only the chunk at offset 0, reporting idle at
offset 4 (a transfer that fails half-way). -/
def encPartialOracle : BusWrite → List ℕ := fun w =>
  if w = (PICO2_ADDR, 0, [CMD_RECORD, 1, 0, 0, 0, 0]) then encReadyFrame 8
  else if w = encChunkReq 0 then [STATUS_CHUNK, 5, 0, 0, 0, 0]
  else [STATUS_ENCODER_IDLE, 0, 0, 0, 0, 0]

/-- A concrete oracle peripheral used in witnesses: advertises 4 bytes
of encoder data and serves them successfully (a fully successful short
transfer with the same chunk content as encPartialOracle). -/
def encShortOracle : BusWrite → List ℕ := fun w =>
  if w = (PICO2_ADDR, 0, [CMD_RECORD, 1, 0, 0, 0, 0]) then encReadyFrame 4
  else if w = encChunkReq 0 then [STATUS_CHUNK, 5, 0, 0, 0, 0]
  else [STATUS_ENCODER_IDLE, 0, 0, 0, 0, 0]

-- ### Byte-arithmetic lemmas

theorem and255_eq_mod (x : ℕ) : x &&& 255 = x % 256 := by
  have h : (255 : ℕ) = 2 ^ 8 - 1 := by norm_num
  rw [h, Nat.and_pow_two_sub_one_eq_mod]

theorem shift8_eq_div (x : ℕ) : x >>> 8 = x / 256 := by
  rw [Nat.shiftRight_eq_div_pow]

theorem beWord16_of_bytes (v : ℕ) (h : v < 2 ^ 16) :
    ((v >>> 8) &&& 255) * 2 ^ 8 + (v &&& 255) = v := by
  rw [and255_eq_mod, and255_eq_mod, shift8_eq_div]
  have h16 : v < 65536 := by omega
  have e8 : (2 : ℕ) ^ 8 = 256 := by norm_num
  rw [e8]
  omega

theorem le16_reassemble (t : ℕ) (h : t < 2 ^ 16) :
    (t &&& 255) ||| (((t >>> 8) &&& 255) <<< 8) = t := by
  rw [and255_eq_mod, and255_eq_mod, shift8_eq_div, Nat.shiftLeft_eq]
  have h16 : t < 65536 := by omega
  have hd : t / 256 % 256 = t / 256 := Nat.mod_eq_of_lt (by omega)
  rw [hd, Nat.or_comm, Nat.mul_comm]
  have hm : t % 256 < 2 ^ 8 := by
    have := Nat.mod_lt t (show 0 < 256 by norm_num)
    omega
  have key := Nat.mul_add_lt_is_or hm (t / 256)
  rw [← key]
  have e8 : (2 : ℕ) ^ 8 = 256 := by norm_num
  rw [e8]
  omega

theorem encChunkReq_injective {a b : ℕ} (ha : a < 2 ^ 16) (hb : b < 2 ^ 16)
    (h : encChunkReq a = encChunkReq b) : a = b := by
  unfold encChunkReq at h
  have h1 : a &&& 255 = b &&& 255 := by
    have h0 := congrArg (fun w : BusWrite => w.2.2.getD 0 0) h
    simpa using h0
  have h2 : (a >>> 8) &&& 255 = (b >>> 8) &&& 255 := by
    have h0 := congrArg (fun w : BusWrite => w.2.2.getD 1 0) h
    simpa using h0
  simp only [and255_eq_mod, shift8_eq_div] at h1 h2
  have ha16 : a < 65536 := by omega
  have hb16 : b < 65536 := by omega
  omega

theorem hlfbChunkReq_injective {a b : ℕ} (ha : a < 2 ^ 16) (hb : b < 2 ^ 16)
    (h : hlfbChunkReq a = hlfbChunkReq b) : a = b := by
  unfold hlfbChunkReq at h
  have h1 : a &&& 255 = b &&& 255 := by
    have h0 := congrArg (fun w : BusWrite => w.2.2.getD 1 0) h
    simpa using h0
  have h2 : (a >>> 8) &&& 255 = (b >>> 8) &&& 255 := by
    have h0 := congrArg (fun w : BusWrite => w.2.2.getD 2 0) h
    simpa using h0
  simp only [and255_eq_mod, shift8_eq_div] at h1 h2
  have ha16 : a < 65536 := by omega
  have hb16 : b < 65536 := by omega
  omega

-- ### Loop unfolding lemmas

theorem encChunkLoopAux_fuel {σ : Type} (B : Bus σ) (total : ℕ) :
    ∀ (n m offset : ℕ) (s : σ), total ≤ offset + 4 * n → total ≤ offset + 4 * m →
      encChunkLoopAux B total n offset s = encChunkLoopAux B total m offset s := by
  intro n
  induction n with
  | zero =>
    intro m offset s hn hm
    cases m with
    | zero => rfl
    | succ m =>
      simp only [encChunkLoopAux]
      rw [if_neg (by omega)]
  | succ n ih =>
    intro m offset s hn hm
    cases m with
    | zero =>
      simp only [encChunkLoopAux]
      rw [if_neg (by omega)]
    | succ m =>
      simp only [encChunkLoopAux]
      by_cases ho : offset < total
      · rw [if_pos ho, if_pos ho, ih m (offset + 4) _ (by omega) (by omega)]
      · rw [if_neg ho, if_neg ho]

theorem encChunkLoop_stop {σ : Type} (B : Bus σ) (total offset : ℕ) (s : σ)
    (h : ¬ offset < total) : encChunkLoop B total offset s = ⟨[], none, offset, [], s⟩ := by
  unfold encChunkLoop
  simp only [encChunkLoopAux]
  rw [if_neg h]

theorem encChunkLoop_step {σ : Type} (B : Bus σ) (total offset : ℕ) (s : σ)
    (h : offset < total) :
    encChunkLoop B total offset s =
      (let s1 := B.write_i2c_block_data s PICO2_ADDR CMD_READ_CHUNK
         [offset &&& 0xFF, (offset >>> 8) &&& 0xFF]
       let rd := B.read_i2c_block_data s1 PICO2_ADDR 0 6
       if rd.1.headD 0 = STATUS_CHUNK then
         let rest := encChunkLoop B total (offset + 4) rd.2
         { rest with
           collected := (rd.1.drop 1).take 4 ++ rest.collected,
           writes := (PICO2_ADDR, CMD_READ_CHUNK,
             [offset &&& 0xFF, (offset >>> 8) &&& 0xFF]) :: rest.writes }
       else ⟨[], some offset, offset,
         [(PICO2_ADDR, CMD_READ_CHUNK, [offset &&& 0xFF, (offset >>> 8) &&& 0xFF])], rd.2⟩) := by
  unfold encChunkLoop
  conv_lhs => rw [encChunkLoopAux]
  rw [if_pos h]
  by_cases hs : (B.read_i2c_block_data
      (B.write_i2c_block_data s PICO2_ADDR CMD_READ_CHUNK
        [offset &&& 0xFF, (offset >>> 8) &&& 0xFF]) PICO2_ADDR 0 6).1.headD 0 = STATUS_CHUNK
  · simp only [hs, if_pos]
    rw [encChunkLoopAux_fuel B total total (total + 1) (offset + 4) _ (by omega) (by omega)]
  · simp only [if_neg hs]

theorem hlfbChunkLoopAux_fuel {σ : Type} (B : Bus σ) (total : ℕ) :
    ∀ (n m offset : ℕ) (s : σ), total ≤ offset + 4 * n → total ≤ offset + 4 * m →
      hlfbChunkLoopAux B total n offset s = hlfbChunkLoopAux B total m offset s := by
  intro n
  induction n with
  | zero =>
    intro m offset s hn hm
    cases m with
    | zero => rfl
    | succ m =>
      simp only [hlfbChunkLoopAux]
      rw [if_neg (by omega)]
  | succ n ih =>
    intro m offset s hn hm
    cases m with
    | zero =>
      simp only [hlfbChunkLoopAux]
      rw [if_neg (by omega)]
    | succ m =>
      simp only [hlfbChunkLoopAux]
      by_cases ho : offset < total
      · rw [if_pos ho, if_pos ho, ih m (offset + 4) _ (by omega) (by omega)]
      · rw [if_neg ho, if_neg ho]

theorem hlfbChunkLoop_stop {σ : Type} (B : Bus σ) (total offset : ℕ) (s : σ)
    (h : ¬ offset < total) : hlfbChunkLoop B total offset s = ⟨[], none, offset, [], s⟩ := by
  unfold hlfbChunkLoop
  simp only [hlfbChunkLoopAux]
  rw [if_neg h]

theorem hlfbChunkLoop_step {σ : Type} (B : Bus σ) (total offset : ℕ) (s : σ)
    (h : offset < total) :
    hlfbChunkLoop B total offset s =
      (let cmd_buf := [CMD_READ_HLFB_CHUNK, offset &&& 0xFF, (offset >>> 8) &&& 0xFF, 0, 0, 0]
       let s1 := B.write_i2c_block_data s I2C_PICO_ADDR 0 cmd_buf
       let rd := B.read_i2c_block_data s1 I2C_PICO_ADDR 0 I2C_BUFFER_SIZE
       if rd.1.headD 0 = STATUS_HLFB_DATA_CHUNK then
         let val := leWord32 (rd.1.getD 1 0) (rd.1.getD 2 0) (rd.1.getD 3 0) (rd.1.getD 4 0)
         let rest := hlfbChunkLoop B total (offset + 4) rd.2
         { rest with
           results := val :: rest.results,
           writes := (I2C_PICO_ADDR, 0, cmd_buf) :: rest.writes }
       else ⟨[], some offset, offset, [(I2C_PICO_ADDR, 0, cmd_buf)], rd.2⟩) := by
  unfold hlfbChunkLoop
  conv_lhs => rw [hlfbChunkLoopAux]
  rw [if_pos h]
  by_cases hs : (B.read_i2c_block_data
      (B.write_i2c_block_data s I2C_PICO_ADDR 0
        [CMD_READ_HLFB_CHUNK, offset &&& 0xFF, (offset >>> 8) &&& 0xFF, 0, 0, 0])
      I2C_PICO_ADDR 0 I2C_BUFFER_SIZE).1.headD 0 = STATUS_HLFB_DATA_CHUNK
  · simp only [hs, if_pos]
    rw [hlfbChunkLoopAux_fuel B total total (total + 1) (offset + 4) _ (by omega) (by omega)]
  · simp only [if_neg hs]

-- ### Rounding lemmas

theorem pyRound_nonneg {q : ℚ} (h : 0 ≤ q) : 0 ≤ pyRound q := by
  unfold pyRound
  have hf : (0 : ℤ) ≤ ⌊q⌋ := Int.floor_nonneg.mpr h
  split_ifs <;> omega

theorem pyRound_le_of_le {q : ℚ} {n : ℤ} (h : q ≤ (n : ℚ)) : pyRound q ≤ n := by
  have hf : ⌊q⌋ ≤ n := by
    have h1 := Int.floor_le_floor h
    simpa using h1
  unfold pyRound
  rcases lt_or_eq_of_le hf with hl | he
  · split_ifs <;> omega
  · have hqe : ((⌊q⌋ : ℤ) : ℚ) = (n : ℚ) := by exact_mod_cast he
    have hq0 : q - ((⌊q⌋ : ℤ) : ℚ) ≤ 0 := by rw [hqe]; linarith
    split_ifs with h1 h2
    · omega
    · linarith
    · omega
    · linarith

-- ### Claim C1

set_option maxRecDepth 40000

/-- C1: against the DummyBus emulator, arm(samples = 4) followed by
read_captured_data does see a READY status with a 16-byte total, but the
chunk download fails at offset 0 (the emulator does not recognise the
register-based chunk request that read_encoder_data issues), so the call
returns an empty list instead of the four samples 0, 10, 20, 30.  This
exhibits the divergence between the code and the claimed scenario. -/
theorem c1_emulated_arm4_then_read :
    (dummyBus.read_i2c_block_data (arm_encoder dummyBus DummyBus.init 4).state
        PICO2_ADDR 0 6).1 = [STATUS_READY, 16, 0, 0, 0, 0] ∧
    (arm_encoder dummyBus DummyBus.init 4).state.mem60 =
      int32LE 0 ++ int32LE 10 ++ int32LE 20 ++ int32LE 30 ∧
    (read_encoder_data dummyBus (arm_encoder dummyBus DummyBus.init 4).state).values =
      .list [] ∧
    (read_encoder_data dummyBus (arm_encoder dummyBus DummyBus.init 4).state).chunkErr =
      some 0 := by
  refine ⟨by decide, by decide, by decide, by decide⟩

-- ### Claim C10

/-- C10: for every explicitly supplied samples value outside [0, 255],
arm_encoder ends in an uncaught ValueError raised by the byte assignment
to buf, rather than returning False, and no bus write happens. -/
theorem c10_arm_out_of_range_raises {σ : Type} (B : Bus σ) (s : σ) (n : ℤ)
    (h : n < 0 ∨ 255 < n) :
    (arm_encoder B s n).outcome = .valueError ∧ (arm_encoder B s n).writes = [] ∧
    (arm_encoder B s n).state = s := by
  unfold arm_encoder
  rw [if_neg (by omega)]
  exact ⟨rfl, rfl, rfl⟩

/-- Witness for C10 at samples = 300 and samples = -1. -/
theorem c10_witness :
    ((arm_encoder dummyBus DummyBus.init 300).outcome = .valueError ∧
     (arm_encoder dummyBus DummyBus.init 300).writes = [] ∧
     (arm_encoder dummyBus DummyBus.init 300).state = DummyBus.init) ∧
    ((arm_encoder dummyBus DummyBus.init (-1)).outcome = .valueError ∧
     (arm_encoder dummyBus DummyBus.init (-1)).writes = [] ∧
     (arm_encoder dummyBus DummyBus.init (-1)).state = DummyBus.init) :=
  ⟨c10_arm_out_of_range_raises dummyBus DummyBus.init 300 (Or.inr (by norm_num)),
   c10_arm_out_of_range_raises dummyBus DummyBus.init (-1) (Or.inl (by norm_num))⟩

-- ### Claim C4

/-- C4 counterexample: the HLFB poll loop also continues polling on
status 0x03 (the value of CMD_RECORD_HLFB), which is outside the
capturing set {HLFB_CAPTURING}: with a peripheral that answers status 3
and then ERROR, the loop consumes both responses (final script state is
empty), i.e. it kept polling after the unexpected status 3 instead of
aborting there. -/
theorem c4_counterexample :
    hlfbPollAct 3 = .wait ∧
    (3 ≠ STATUS_HLFB_CAPTURING ∧ 3 ≠ STATUS_HLFB_RECORDED ∧ 3 ≠ STATUS_ERROR) ∧
    (capture_and_read_hlfb scriptBus 5 [[3, 0, 0, 0, 0, 0], [0xFF, 0, 0, 0, 0, 0]] 1).outcome =
      .aborted ∧
    (capture_and_read_hlfb scriptBus 5 [[3, 0, 0, 0, 0, 0], [0xFF, 0, 0, 0, 0, 0]] 1).state =
      ([] : List (List ℕ)) := by
  decide

/-- C4 amended: the poll loop continues (waits and retries) exactly on
HLFB_CAPTURING (0x14) and on status 0x03 (equal to the CMD_RECORD_HLFB
opcode, treated as "Pico not ready"); it exits successfully exactly on
HLFB_RECORDED (0x13); every other status (including ERROR 0xFF) aborts
the operation. -/
theorem c4_amended_poll_classification (status : ℕ) :
    (hlfbPollAct status = .wait ↔
      status = STATUS_HLFB_CAPTURING ∨ status = CMD_RECORD_HLFB) ∧
    (hlfbPollAct status = .success ↔ status = STATUS_HLFB_RECORDED) ∧
    (hlfbPollAct status = .abort ↔
      status ≠ STATUS_HLFB_CAPTURING ∧ status ≠ CMD_RECORD_HLFB ∧
      status ≠ STATUS_HLFB_RECORDED) := by
  unfold hlfbPollAct STATUS_HLFB_CAPTURING STATUS_HLFB_RECORDED STATUS_ERROR CMD_RECORD_HLFB
  split_ifs with h1 h2 h3 h4 <;> simp_all

-- ### Claim C3

/-- C3 counterexample: on a zero advertised byte count,
capture_and_read_hlfb does not return an empty sample sequence; it
aborts (the Python function returns None). -/
theorem c3_counterexample :
    (capture_and_read_hlfb scriptBus 5 [[0x13, 0, 0, 0, 0, 0]] 1).outcome = .aborted ∧
    (capture_and_read_hlfb scriptBus 5 [[0x13, 0, 0, 0, 0, 0]] 1).outcome ≠
      .samples [] := by
  decide

/-- C3 amended: with a zero advertised byte count, both transfers issue
zero chunk requests; read_encoder_data returns an empty list, while
capture_and_read_hlfb aborts with no result (Python None) — only the
record command frame is ever written. -/
theorem c3_amended_zero_total {σ τ : Type} (B : Bus σ) (s : σ) (C : Bus τ) (t : τ)
    (n : ℤ) (fuel : ℕ) :
    ((B.read_i2c_block_data s PICO2_ADDR 0 6).1.headD 0 = STATUS_READY →
      (B.read_i2c_block_data s PICO2_ADDR 0 6).1.getD 1 0 |||
        ((B.read_i2c_block_data s PICO2_ADDR 0 6).1.getD 2 0 <<< 8) = 0 →
      (read_encoder_data B s).values = .list [] ∧ (read_encoder_data B s).writes = []) ∧
    (1 ≤ n ∧ n ≤ 255 →
      ∀ sb t2, hlfbPoll C fuel (C.write_i2c_block_data t I2C_PICO_ADDR 0
          [CMD_RECORD_HLFB, n.toNat, 0, 0, 0, 0]) = (.recorded sb, t2) →
        sb.getD 2 0 ||| (sb.getD 3 0 <<< 8) = 0 →
        (capture_and_read_hlfb C fuel t n).outcome = .aborted ∧
        (capture_and_read_hlfb C fuel t n).writes =
          [(I2C_PICO_ADDR, 0, [CMD_RECORD_HLFB, n.toNat, 0, 0, 0, 0])]) := by
  constructor
  · intro hst htot
    have hloop := encChunkLoop_stop B 0 0 (B.read_i2c_block_data s PICO2_ADDR 0 6).2
      (by omega)
    unfold read_encoder_data
    rw [if_neg (by rw [hst]; decide), if_pos hst, htot]
    simp only [hloop]
    simp [bytesToInt32s]
  · intro hn sb t2 hpoll hsb
    have hsb2 : sb[2]?.getD 0 ||| sb[3]?.getD 0 <<< 8 = 0 := by simpa using hsb
    unfold capture_and_read_hlfb
    rw [if_pos hn]
    simp [hpoll, hsb2]

/-- Witness for C3 at concrete peripherals advertising zero bytes. -/
theorem c3_witness :
    ((read_encoder_data scriptBus [[0x33, 0, 0, 0, 0, 0]]).values = .list [] ∧
     (read_encoder_data scriptBus [[0x33, 0, 0, 0, 0, 0]]).writes = []) ∧
    ((capture_and_read_hlfb scriptBus 5 [[0x13, 0, 0, 0, 0, 0]] 1).outcome = .aborted ∧
     (capture_and_read_hlfb scriptBus 5 [[0x13, 0, 0, 0, 0, 0]] 1).writes =
       [(I2C_PICO_ADDR, 0, [CMD_RECORD_HLFB, 1, 0, 0, 0, 0])]) :=
  ⟨(c3_amended_zero_total scriptBus [[0x33, 0, 0, 0, 0, 0]] scriptBus
      [[0x13, 0, 0, 0, 0, 0]] 1 5).1 (by decide) (by decide),
   (c3_amended_zero_total scriptBus [[0x33, 0, 0, 0, 0, 0]] scriptBus
      [[0x13, 0, 0, 0, 0, 0]] 1 5).2 (by decide) [0x13, 0, 0, 0, 0, 0] [] (by decide)
      (by decide)⟩

-- ### Claim C2

/-- C2 counterexample: a transfer that fails half-way (8 bytes
advertised, chunk at offset 4 rejected) returns exactly the same value
as a fully successful 4-byte transfer with the same first chunk — the
caller cannot distinguish the partial result from full success; the
failure is only recorded in the printed error message (modelled by the
chunkErr field), not in the return value. -/
theorem c2_counterexample :
    (read_encoder_data scriptBus
        [[0x33, 8, 0, 0, 0, 0], [0x34, 5, 0, 0, 0, 0], [0x31, 0, 0, 0, 0, 0]]).values =
      (read_encoder_data scriptBus [[0x33, 4, 0, 0, 0, 0], [0x34, 5, 0, 0, 0, 0]]).values ∧
    (read_encoder_data scriptBus
        [[0x33, 8, 0, 0, 0, 0], [0x34, 5, 0, 0, 0, 0], [0x31, 0, 0, 0, 0, 0]]).values =
      .list [5] ∧
    (read_encoder_data scriptBus
        [[0x33, 8, 0, 0, 0, 0], [0x34, 5, 0, 0, 0, 0], [0x31, 0, 0, 0, 0, 0]]).chunkErr =
      some 4 ∧
    (read_encoder_data scriptBus [[0x33, 4, 0, 0, 0, 0], [0x34, 5, 0, 0, 0, 0]]).chunkErr =
      none := by
  decide

-- ### Claim C6

/-- C6: a ramp multiplier outside [0, 255] makes start_motor reject the
call with no bus write and no state change; with the ramp in range, a
computed duty cycle outside [0, 1] likewise rejects before any write;
and capture_and_read_hlfb rejects a sample count outside [1, 255] with
no write and no state change. -/
theorem c6_range_rejections {σ : Type} (B : Bus σ) (s : σ) (ms os : ℚ) (r : ℤ)
    (d : String) (n : ℤ) (fuel : ℕ) :
    ((r < 0 ∨ 255 < r) →
      (start_motor B s ms os r d).outcome = .rejected ∧
      (start_motor B s ms os r d).writes = [] ∧
      (start_motor B s ms os r d).state = s) ∧
    (0 ≤ r → r ≤ 255 → ms ≠ 0 → ¬((0 : ℚ) ≤ os * 60 / ms ∧ os * 60 / ms ≤ 1) →
      (start_motor B s ms os r d).outcome = .rejected ∧
      (start_motor B s ms os r d).writes = [] ∧
      (start_motor B s ms os r d).state = s) ∧
    ((n < 1 ∨ 255 < n) →
      (capture_and_read_hlfb B fuel s n).outcome = .rejected ∧
      (capture_and_read_hlfb B fuel s n).writes = [] ∧
      (capture_and_read_hlfb B fuel s n).state = s) := by
  refine ⟨?_, ?_, ?_⟩
  · intro h
    simp only [start_motor]
    rw [if_pos (by omega)]
    exact ⟨rfl, rfl, rfl⟩
  · intro hr0 hr1 hms hd
    simp only [start_motor]
    rw [if_neg (by omega), if_neg hms, if_pos hd]
    exact ⟨rfl, rfl, rfl⟩
  · intro h
    simp only [capture_and_read_hlfb]
    rw [if_neg (by omega)]
    exact ⟨rfl, rfl, rfl⟩

/-- Witness for C6: ramp 300, duty cycle 5, and sample count 300 are
all rejected with no writes. -/
theorem c6_witness :
    ((start_motor dummyBus DummyBus.init 6000 50 300 dirCW).outcome = .rejected ∧
     (start_motor dummyBus DummyBus.init 6000 50 300 dirCW).writes = [] ∧
     (start_motor dummyBus DummyBus.init 6000 50 300 dirCW).state = DummyBus.init) ∧
    ((start_motor dummyBus DummyBus.init 6000 500 10 dirCW).outcome = .rejected ∧
     (start_motor dummyBus DummyBus.init 6000 500 10 dirCW).writes = [] ∧
     (start_motor dummyBus DummyBus.init 6000 500 10 dirCW).state = DummyBus.init) ∧
    ((capture_and_read_hlfb dummyBus 5 DummyBus.init 300).outcome = .rejected ∧
     (capture_and_read_hlfb dummyBus 5 DummyBus.init 300).writes = [] ∧
     (capture_and_read_hlfb dummyBus 5 DummyBus.init 300).state = DummyBus.init) :=
  ⟨(c6_range_rejections dummyBus DummyBus.init 6000 50 300 dirCW 300 5).1
      (Or.inr (by norm_num)),
   (c6_range_rejections dummyBus DummyBus.init 6000 500 10 dirCW 300 5).2.1
      (by norm_num) (by norm_num) (by norm_num) (by norm_num),
   (c6_range_rejections dummyBus DummyBus.init 6000 50 10 dirCW 300 5).2.2
      (Or.inr (by norm_num))⟩

-- ### Claim C5

/-- C5: whenever the computed duty cycle lies in [0, 1] (and the other
inputs are accepted), start_motor sends exactly one frame, whose payload
bytes 1 and 2, read as a big-endian unsigned 16-bit integer, equal the
Python round of duty_cycle * 65535. -/
theorem c5_start_frame_bigendian_duty {σ : Type} (B : Bus σ) (s : σ) (ms os : ℚ)
    (r : ℤ) (hr0 : 0 ≤ r) (hr1 : r ≤ 255) (hms : ms ≠ 0)
    (hd0 : 0 ≤ os * 60 / ms) (hd1 : os * 60 / ms ≤ 1) :
    ∃ buf, (start_motor B s ms os r dirCW).writes = [(I2C_PICO_ADDR, 0, buf)] ∧
      buf.getD 1 0 * 2 ^ 8 + buf.getD 2 0 = (pyRound (os * 60 / ms * 65535)).toNat := by
  have hub : pyRound (os * 60 / ms * 65535) ≤ 65535 := by
    apply pyRound_le_of_le
    push_cast
    nlinarith
  have hlb : 0 ≤ pyRound (os * 60 / ms * 65535) := pyRound_nonneg (by nlinarith)
  have hvle : (pyRound (os * 60 / ms * 65535)).toNat ≤ 65535 := by omega
  have hvlt : (pyRound (os * 60 / ms * 65535)).toNat < 2 ^ 16 :=
    lt_of_le_of_lt hvle (by norm_num)
  simp only [start_motor]
  rw [if_neg (by omega), if_neg hms, if_neg (not_not_intro ⟨hd0, hd1⟩)]
  have hdir : (if dirCW = "cw" then some 0
      else if dirCW = "ccw" then some 1 else none) = some 0 := rfl
  rw [hdir]
  refine ⟨_, rfl, ?_⟩
  simpa using beWord16_of_bytes _ hvlt

/-- Witness for C5 at max speed 6000 rpm and operating speed 50 Hz
(duty cycle one half, rounding to 32768). -/
theorem c5_witness :
    ∃ buf, (start_motor dummyBus DummyBus.init 6000 50 10 dirCW).writes =
      [(I2C_PICO_ADDR, 0, buf)] ∧
      buf.getD 1 0 * 2 ^ 8 + buf.getD 2 0 =
        (pyRound ((50 : ℚ) * 60 / 6000 * 65535)).toNat :=
  c5_start_frame_bigendian_duty dummyBus DummyBus.init 6000 50 10 (by norm_num)
    (by norm_num) (by norm_num) (by norm_num) (by norm_num)

-- ### Oracle-bus characterisations of the two chunk loops

theorem encChunkLoop_funBus_fail (f : BusWrite → List ℕ) (m : ℕ) :
    ∀ (offset total : ℕ) (w : Option BusWrite),
      offset + 4 * m < total →
      (∀ j, j < m → (f (encChunkReq (offset + 4 * j))).headD 0 = STATUS_CHUNK) →
      (f (encChunkReq (offset + 4 * m))).headD 0 ≠ STATUS_CHUNK →
      (encChunkLoop (funBus f) total offset w).collected =
        ((List.range m).map fun j =>
          ((f (encChunkReq (offset + 4 * j))).drop 1).take 4).flatten ∧
      (encChunkLoop (funBus f) total offset w).err = some (offset + 4 * m) ∧
      (encChunkLoop (funBus f) total offset w).finalOffset = offset + 4 * m ∧
      (encChunkLoop (funBus f) total offset w).writes =
        (List.range (m + 1)).map fun j => encChunkReq (offset + 4 * j) := by
  induction m with
  | zero =>
    intro offset total w hlt hgood hbad
    simp only [Nat.mul_zero, Nat.add_zero] at hlt hbad ⊢
    rw [encChunkLoop_step _ _ _ _ hlt]
    have hread : ((funBus f).read_i2c_block_data
        ((funBus f).write_i2c_block_data w PICO2_ADDR CMD_READ_CHUNK
          [offset &&& 0xFF, (offset >>> 8) &&& 0xFF]) PICO2_ADDR 0 6).1 =
        f (encChunkReq offset) := rfl
    simp only [hread]
    rw [if_neg hbad]
    refine ⟨rfl, rfl, rfl, ?_⟩
    simp [encChunkReq, List.range_succ]
  | succ m ih =>
    intro offset total w hlt hgood hbad
    rw [encChunkLoop_step _ _ _ _ (by omega)]
    have hread : ((funBus f).read_i2c_block_data
        ((funBus f).write_i2c_block_data w PICO2_ADDR CMD_READ_CHUNK
          [offset &&& 0xFF, (offset >>> 8) &&& 0xFF]) PICO2_ADDR 0 6).1 =
        f (encChunkReq offset) := rfl
    simp only [hread]
    have h0 : (f (encChunkReq offset)).headD 0 = STATUS_CHUNK := by
      have h00 := hgood 0 (by omega)
      simpa using h00
    rw [if_pos h0]
    obtain ⟨ih1, ih2, ih3, ih4⟩ := ih (offset + 4) total
      (((funBus f).read_i2c_block_data
        ((funBus f).write_i2c_block_data w PICO2_ADDR CMD_READ_CHUNK
          [offset &&& 0xFF, (offset >>> 8) &&& 0xFF]) PICO2_ADDR 0 6).2)
      (by omega)
      (fun j hj => by
        have e : offset + 4 + 4 * j = offset + 4 * (j + 1) := by omega
        rw [e]
        exact hgood (j + 1) (by omega))
      (by
        have e : offset + 4 + 4 * m = offset + 4 * (m + 1) := by omega
        rw [e]
        exact hbad)
    refine ⟨?_, ?_, ?_, ?_⟩
    · show ((f (encChunkReq offset)).drop 1).take 4 ++ _ = _
      rw [ih1, List.range_succ_eq_map]
      simp only [List.map_cons, List.map_map, List.flatten_cons, Nat.mul_zero, Nat.add_zero]
      congr 1
      congr 1
      apply List.map_congr_left
      intro j hj
      have e : offset + 4 + 4 * j = offset + 4 * (j + 1) := by omega
      simp [Function.comp, e]
    · show (encChunkLoop _ _ _ _).err = _
      rw [ih2]
      congr 1
      omega
    · show (encChunkLoop _ _ _ _).finalOffset = _
      rw [ih3]
      omega
    · show (PICO2_ADDR, CMD_READ_CHUNK, _) :: _ = _
      rw [ih4, List.range_succ_eq_map (m + 1)]
      simp only [List.map_cons, List.map_map, Nat.mul_zero, Nat.add_zero]
      congr 1
      apply List.map_congr_left
      intro j hj
      have e : offset + 4 + 4 * j = offset + 4 * (j + 1) := by omega
      simp [Function.comp, e]

theorem encChunkLoop_funBus_good (f : BusWrite → List ℕ) (m : ℕ) :
    ∀ (offset total : ℕ) (w : Option BusWrite),
      total = offset + 4 * m →
      (∀ j, j < m → (f (encChunkReq (offset + 4 * j))).headD 0 = STATUS_CHUNK) →
      (encChunkLoop (funBus f) total offset w).collected =
        ((List.range m).map fun j =>
          ((f (encChunkReq (offset + 4 * j))).drop 1).take 4).flatten ∧
      (encChunkLoop (funBus f) total offset w).err = none ∧
      (encChunkLoop (funBus f) total offset w).finalOffset = total ∧
      (encChunkLoop (funBus f) total offset w).writes =
        (List.range m).map fun j => encChunkReq (offset + 4 * j) := by
  induction m with
  | zero =>
    intro offset total w htot hgood
    rw [encChunkLoop_stop _ _ _ _ (by omega)]
    refine ⟨rfl, rfl, by show offset = total; omega, rfl⟩
  | succ m ih =>
    intro offset total w htot hgood
    rw [encChunkLoop_step _ _ _ _ (by omega)]
    have hread : ((funBus f).read_i2c_block_data
        ((funBus f).write_i2c_block_data w PICO2_ADDR CMD_READ_CHUNK
          [offset &&& 0xFF, (offset >>> 8) &&& 0xFF]) PICO2_ADDR 0 6).1 =
        f (encChunkReq offset) := rfl
    simp only [hread]
    have h0 : (f (encChunkReq offset)).headD 0 = STATUS_CHUNK := by
      have h00 := hgood 0 (by omega)
      simpa using h00
    rw [if_pos h0]
    obtain ⟨ih1, ih2, ih3, ih4⟩ := ih (offset + 4) total
      (((funBus f).read_i2c_block_data
        ((funBus f).write_i2c_block_data w PICO2_ADDR CMD_READ_CHUNK
          [offset &&& 0xFF, (offset >>> 8) &&& 0xFF]) PICO2_ADDR 0 6).2)
      (by omega)
      (fun j hj => by
        have e : offset + 4 + 4 * j = offset + 4 * (j + 1) := by omega
        rw [e]
        exact hgood (j + 1) (by omega))
    refine ⟨?_, ih2, ih3, ?_⟩
    · show ((f (encChunkReq offset)).drop 1).take 4 ++ _ = _
      rw [ih1, List.range_succ_eq_map]
      simp only [List.map_cons, List.map_map, List.flatten_cons, Nat.mul_zero, Nat.add_zero]
      congr 1
      congr 1
      apply List.map_congr_left
      intro j hj
      have e : offset + 4 + 4 * j = offset + 4 * (j + 1) := by omega
      simp [Function.comp, e]
    · show (PICO2_ADDR, CMD_READ_CHUNK, _) :: _ = _
      rw [ih4, List.range_succ_eq_map m]
      simp only [List.map_cons, List.map_map, Nat.mul_zero, Nat.add_zero]
      congr 1
      apply List.map_congr_left
      intro j hj
      have e : offset + 4 + 4 * j = offset + 4 * (j + 1) := by omega
      simp [Function.comp, e]

theorem hlfbChunkLoop_funBus_fail (f : BusWrite → List ℕ) (m : ℕ) :
    ∀ (offset total : ℕ) (w : Option BusWrite),
      offset + 4 * m < total →
      (∀ j, j < m →
        (f (hlfbChunkReq (offset + 4 * j))).headD 0 = STATUS_HLFB_DATA_CHUNK) →
      (f (hlfbChunkReq (offset + 4 * m))).headD 0 ≠ STATUS_HLFB_DATA_CHUNK →
      (hlfbChunkLoop (funBus f) total offset w).results =
        ((List.range m).map fun j => hlfbChunkVal (f (hlfbChunkReq (offset + 4 * j)))) ∧
      (hlfbChunkLoop (funBus f) total offset w).err = some (offset + 4 * m) ∧
      (hlfbChunkLoop (funBus f) total offset w).finalOffset = offset + 4 * m ∧
      (hlfbChunkLoop (funBus f) total offset w).writes =
        (List.range (m + 1)).map fun j => hlfbChunkReq (offset + 4 * j) := by
  induction m with
  | zero =>
    intro offset total w hlt hgood hbad
    simp only [Nat.mul_zero, Nat.add_zero] at hlt hbad ⊢
    rw [hlfbChunkLoop_step _ _ _ _ hlt]
    have hread : ((funBus f).read_i2c_block_data
        ((funBus f).write_i2c_block_data w I2C_PICO_ADDR 0
          [CMD_READ_HLFB_CHUNK, offset &&& 0xFF, (offset >>> 8) &&& 0xFF, 0, 0, 0])
        I2C_PICO_ADDR 0 I2C_BUFFER_SIZE).1 = f (hlfbChunkReq offset) := rfl
    simp only [hread]
    rw [if_neg hbad]
    refine ⟨rfl, rfl, rfl, ?_⟩
    simp [hlfbChunkReq, List.range_succ]
  | succ m ih =>
    intro offset total w hlt hgood hbad
    rw [hlfbChunkLoop_step _ _ _ _ (by omega)]
    have hread : ((funBus f).read_i2c_block_data
        ((funBus f).write_i2c_block_data w I2C_PICO_ADDR 0
          [CMD_READ_HLFB_CHUNK, offset &&& 0xFF, (offset >>> 8) &&& 0xFF, 0, 0, 0])
        I2C_PICO_ADDR 0 I2C_BUFFER_SIZE).1 = f (hlfbChunkReq offset) := rfl
    simp only [hread]
    have h0 : (f (hlfbChunkReq offset)).headD 0 = STATUS_HLFB_DATA_CHUNK := by
      have h00 := hgood 0 (by omega)
      simpa using h00
    rw [if_pos h0]
    obtain ⟨ih1, ih2, ih3, ih4⟩ := ih (offset + 4) total
      (((funBus f).read_i2c_block_data
        ((funBus f).write_i2c_block_data w I2C_PICO_ADDR 0
          [CMD_READ_HLFB_CHUNK, offset &&& 0xFF, (offset >>> 8) &&& 0xFF, 0, 0, 0])
        I2C_PICO_ADDR 0 I2C_BUFFER_SIZE).2)
      (by omega)
      (fun j hj => by
        have e : offset + 4 + 4 * j = offset + 4 * (j + 1) := by omega
        rw [e]
        exact hgood (j + 1) (by omega))
      (by
        have e : offset + 4 + 4 * m = offset + 4 * (m + 1) := by omega
        rw [e]
        exact hbad)
    refine ⟨?_, ?_, ?_, ?_⟩
    · show leWord32 _ _ _ _ :: _ = _
      rw [ih1, List.range_succ_eq_map]
      simp only [List.map_cons, List.map_map, Nat.mul_zero, Nat.add_zero]
      congr 1
      apply List.map_congr_left
      intro j hj
      have e : offset + 4 + 4 * j = offset + 4 * (j + 1) := by omega
      simp [Function.comp, e]
    · show (hlfbChunkLoop _ _ _ _).err = _
      rw [ih2]
      congr 1
      omega
    · show (hlfbChunkLoop _ _ _ _).finalOffset = _
      rw [ih3]
      omega
    · show (I2C_PICO_ADDR, 0, _) :: _ = _
      rw [ih4, List.range_succ_eq_map (m + 1)]
      simp only [List.map_cons, List.map_map, Nat.mul_zero, Nat.add_zero]
      congr 1
      apply List.map_congr_left
      intro j hj
      have e : offset + 4 + 4 * j = offset + 4 * (j + 1) := by omega
      simp [Function.comp, e]

theorem hlfbChunkLoop_funBus_good (f : BusWrite → List ℕ) (m : ℕ) :
    ∀ (offset total : ℕ) (w : Option BusWrite),
      total = offset + 4 * m →
      (∀ j, j < m →
        (f (hlfbChunkReq (offset + 4 * j))).headD 0 = STATUS_HLFB_DATA_CHUNK) →
      (hlfbChunkLoop (funBus f) total offset w).results =
        ((List.range m).map fun j => hlfbChunkVal (f (hlfbChunkReq (offset + 4 * j)))) ∧
      (hlfbChunkLoop (funBus f) total offset w).err = none ∧
      (hlfbChunkLoop (funBus f) total offset w).finalOffset = total ∧
      (hlfbChunkLoop (funBus f) total offset w).writes =
        (List.range m).map fun j => hlfbChunkReq (offset + 4 * j) := by
  induction m with
  | zero =>
    intro offset total w htot hgood
    rw [hlfbChunkLoop_stop _ _ _ _ (by omega)]
    refine ⟨rfl, rfl, by show offset = total; omega, rfl⟩
  | succ m ih =>
    intro offset total w htot hgood
    rw [hlfbChunkLoop_step _ _ _ _ (by omega)]
    have hread : ((funBus f).read_i2c_block_data
        ((funBus f).write_i2c_block_data w I2C_PICO_ADDR 0
          [CMD_READ_HLFB_CHUNK, offset &&& 0xFF, (offset >>> 8) &&& 0xFF, 0, 0, 0])
        I2C_PICO_ADDR 0 I2C_BUFFER_SIZE).1 = f (hlfbChunkReq offset) := rfl
    simp only [hread]
    have h0 : (f (hlfbChunkReq offset)).headD 0 = STATUS_HLFB_DATA_CHUNK := by
      have h00 := hgood 0 (by omega)
      simpa using h00
    rw [if_pos h0]
    obtain ⟨ih1, ih2, ih3, ih4⟩ := ih (offset + 4) total
      (((funBus f).read_i2c_block_data
        ((funBus f).write_i2c_block_data w I2C_PICO_ADDR 0
          [CMD_READ_HLFB_CHUNK, offset &&& 0xFF, (offset >>> 8) &&& 0xFF, 0, 0, 0])
        I2C_PICO_ADDR 0 I2C_BUFFER_SIZE).2)
      (by omega)
      (fun j hj => by
        have e : offset + 4 + 4 * j = offset + 4 * (j + 1) := by omega
        rw [e]
        exact hgood (j + 1) (by omega))
    refine ⟨?_, ih2, ih3, ?_⟩
    · show leWord32 _ _ _ _ :: _ = _
      rw [ih1, List.range_succ_eq_map]
      simp only [List.map_cons, List.map_map, Nat.mul_zero, Nat.add_zero]
      congr 1
      apply List.map_congr_left
      intro j hj
      have e : offset + 4 + 4 * j = offset + 4 * (j + 1) := by omega
      simp [Function.comp, e]
    · show (I2C_PICO_ADDR, 0, _) :: _ = _
      rw [ih4, List.range_succ_eq_map m]
      simp only [List.map_cons, List.map_map, Nat.mul_zero, Nat.add_zero]
      congr 1
      apply List.map_congr_left
      intro j hj
      have e : offset + 4 + 4 * j = offset + 4 * (j + 1) := by omega
      simp [Function.comp, e]

/-- C2 amended: when a chunk read aborts the encoder transfer at offset
4m (after m successful chunks), read_encoder_data still returns the
decoded accumulated bytes as an ordinary value — identical to the return
value of a fully successful transfer that advertised only 4m bytes and
served the same m chunks.  The failure is recorded only in the printed
error message (the chunkErr field), which is not part of the return
value, so the caller cannot distinguish the partial result from full
success. -/
theorem c2_amended_partial_indistinguishable (f g : BusWrite → List ℕ)
    (w0 w1 : BusWrite) (m : ℕ)
    (hst : (f w0).headD 0 = STATUS_READY)
    (htot : (f w0).getD 1 0 ||| ((f w0).getD 2 0 <<< 8) = 4 * m + 4)
    (hgood : ∀ j, j < m → (f (encChunkReq (4 * j))).headD 0 = STATUS_CHUNK)
    (hbad : (f (encChunkReq (4 * m))).headD 0 ≠ STATUS_CHUNK)
    (hst2 : (g w1).headD 0 = STATUS_READY)
    (htot2 : (g w1).getD 1 0 ||| ((g w1).getD 2 0 <<< 8) = 4 * m)
    (hsame : ∀ j, j < m → g (encChunkReq (4 * j)) = f (encChunkReq (4 * j))) :
    (read_encoder_data (funBus f) (some w0)).values =
      (read_encoder_data (funBus g) (some w1)).values ∧
    (read_encoder_data (funBus f) (some w0)).chunkErr = some (4 * m) ∧
    (read_encoder_data (funBus g) (some w1)).chunkErr = none := by
  have hstf : ((funBus f).read_i2c_block_data (some w0) PICO2_ADDR 0 6).1.headD 0 =
      STATUS_READY := hst
  have htotf : ((funBus f).read_i2c_block_data (some w0) PICO2_ADDR 0 6).1.getD 1 0 |||
      (((funBus f).read_i2c_block_data (some w0) PICO2_ADDR 0 6).1.getD 2 0 <<< 8) =
      4 * m + 4 := htot
  have hstg : ((funBus g).read_i2c_block_data (some w1) PICO2_ADDR 0 6).1.headD 0 =
      STATUS_READY := hst2
  have htotg : ((funBus g).read_i2c_block_data (some w1) PICO2_ADDR 0 6).1.getD 1 0 |||
      (((funBus g).read_i2c_block_data (some w1) PICO2_ADDR 0 6).1.getD 2 0 <<< 8) =
      4 * m := htot2
  obtain ⟨f1, f2, f3, f4⟩ := encChunkLoop_funBus_fail f m 0 (4 * m + 4)
    (((funBus f).read_i2c_block_data (some w0) PICO2_ADDR 0 6).2) (by omega)
    (fun j hj => by simpa using hgood j hj) (by simpa using hbad)
  obtain ⟨g1, g2, g3, g4⟩ := encChunkLoop_funBus_good g m 0 (4 * m)
    (((funBus g).read_i2c_block_data (some w1) PICO2_ADDR 0 6).2) (by omega)
    (fun j hj => by
      have e := hsame j hj
      simp only [Nat.zero_add]
      rw [e]
      exact hgood j hj)
  have hcoll : ((List.range m).map fun j =>
      ((f (encChunkReq (0 + 4 * j))).drop 1).take 4).flatten =
      ((List.range m).map fun j => ((g (encChunkReq (0 + 4 * j))).drop 1).take 4).flatten := by
    congr 1
    apply List.map_congr_left
    intro j hj
    simp only [Nat.zero_add]
    rw [hsame j (by simpa using hj)]
  unfold read_encoder_data
  rw [if_neg (by rw [hstf]; decide), if_pos hstf, htotf,
    if_neg (by rw [hstg]; decide), if_pos hstg, htotg]
  refine ⟨?_, ?_, ?_⟩
  · simp only [f1, g1, hcoll]
  · simp only [f2]
    norm_num
  · simp only [g2]

/-- Witness for the amended C2: the failing 8-byte transfer of
encPartialOracle returns the same value as the successful 4-byte
transfer of encShortOracle. -/
theorem c2_amended_witness :
    (read_encoder_data (funBus encPartialOracle)
        (some (PICO2_ADDR, 0, [CMD_RECORD, 1, 0, 0, 0, 0]))).values =
      (read_encoder_data (funBus encShortOracle)
        (some (PICO2_ADDR, 0, [CMD_RECORD, 1, 0, 0, 0, 0]))).values ∧
    (read_encoder_data (funBus encPartialOracle)
        (some (PICO2_ADDR, 0, [CMD_RECORD, 1, 0, 0, 0, 0]))).chunkErr = some (4 * 1) ∧
    (read_encoder_data (funBus encShortOracle)
        (some (PICO2_ADDR, 0, [CMD_RECORD, 1, 0, 0, 0, 0]))).chunkErr = none :=
  c2_amended_partial_indistinguishable encPartialOracle encShortOracle
    (PICO2_ADDR, 0, [CMD_RECORD, 1, 0, 0, 0, 0]) (PICO2_ADDR, 0, [CMD_RECORD, 1, 0, 0, 0, 0])
    1 (by decide) (by decide) (by decide) (by decide) (by decide) (by decide) (by decide)

-- ### Claim C7

/-- C7: in both chunk loops, an unexpected status in the response for
offset 4m stops the transfer at once: the requests written are exactly
those for offsets 0, 4, ..., 4m — in particular no request for offset
4m + 4 is ever issued — and the reported error carries the offset 4m. -/
theorem c7_unexpected_status_stops_loop (f g : BusWrite → List ℕ)
    (w0 w1 : Option BusWrite) (m total totalH : ℕ)
    (hk : 4 * m < total) (hkH : 4 * m < totalH) (h16 : 4 * m + 4 < 2 ^ 16)
    (hgood : ∀ j, j < m → (f (encChunkReq (4 * j))).headD 0 = STATUS_CHUNK)
    (hbad : (f (encChunkReq (4 * m))).headD 0 ≠ STATUS_CHUNK)
    (hgoodH : ∀ j, j < m → (g (hlfbChunkReq (4 * j))).headD 0 = STATUS_HLFB_DATA_CHUNK)
    (hbadH : (g (hlfbChunkReq (4 * m))).headD 0 ≠ STATUS_HLFB_DATA_CHUNK) :
    (encChunkLoop (funBus f) total 0 w0).err = some (4 * m) ∧
    (encChunkLoop (funBus f) total 0 w0).writes =
      ((List.range (m + 1)).map fun j => encChunkReq (4 * j)) ∧
    encChunkReq (4 * m + 4) ∉ (encChunkLoop (funBus f) total 0 w0).writes ∧
    (hlfbChunkLoop (funBus g) totalH 0 w1).err = some (4 * m) ∧
    (hlfbChunkLoop (funBus g) totalH 0 w1).writes =
      ((List.range (m + 1)).map fun j => hlfbChunkReq (4 * j)) ∧
    hlfbChunkReq (4 * m + 4) ∉ (hlfbChunkLoop (funBus g) totalH 0 w1).writes := by
  obtain ⟨f1, f2, f3, f4⟩ := encChunkLoop_funBus_fail f m 0 total w0 (by omega)
    (fun j hj => by simpa using hgood j hj) (by simpa using hbad)
  obtain ⟨g1, g2, g3, g4⟩ := hlfbChunkLoop_funBus_fail g m 0 totalH w1 (by omega)
    (fun j hj => by simpa using hgoodH j hj) (by simpa using hbadH)
  have hwf : (encChunkLoop (funBus f) total 0 w0).writes =
      ((List.range (m + 1)).map fun j => encChunkReq (4 * j)) := by
    rw [f4]
    apply List.map_congr_left
    intro j hj
    simp
  have hwg : (hlfbChunkLoop (funBus g) totalH 0 w1).writes =
      ((List.range (m + 1)).map fun j => hlfbChunkReq (4 * j)) := by
    rw [g4]
    apply List.map_congr_left
    intro j hj
    simp
  refine ⟨by rw [f2]; norm_num, hwf, ?_, by rw [g2]; norm_num, hwg, ?_⟩
  · intro hmem
    rw [hwf] at hmem
    obtain ⟨j, hj, hw⟩ := List.mem_map.mp hmem
    have hj2 : j < m + 1 := List.mem_range.mp hj
    have he : 4 * j = 4 * m + 4 :=
      encChunkReq_injective (by omega) (by omega) hw
    omega
  · intro hmem
    rw [hwg] at hmem
    obtain ⟨j, hj, hw⟩ := List.mem_map.mp hmem
    have hj2 : j < m + 1 := List.mem_range.mp hj
    have he : 4 * j = 4 * m + 4 :=
      hlfbChunkReq_injective (by omega) (by omega) hw
    omega

/-- Witness for C7 at offset 12 (m = 3), total 20 bytes: the failing
oracles stop the loops at offset 12, the requests are exactly for
offsets 0, 4, 8, 12, and no request for offset 16 is issued. -/
theorem c7_witness :
    (encChunkLoop (funBus encFailOracle) 20 0 none).err = some (4 * 3) ∧
    (encChunkLoop (funBus encFailOracle) 20 0 none).writes =
      ((List.range (3 + 1)).map fun j => encChunkReq (4 * j)) ∧
    encChunkReq (4 * 3 + 4) ∉ (encChunkLoop (funBus encFailOracle) 20 0 none).writes ∧
    (hlfbChunkLoop (funBus hlfbFailOracle) 20 0 none).err = some (4 * 3) ∧
    (hlfbChunkLoop (funBus hlfbFailOracle) 20 0 none).writes =
      ((List.range (3 + 1)).map fun j => hlfbChunkReq (4 * j)) ∧
    hlfbChunkReq (4 * 3 + 4) ∉ (hlfbChunkLoop (funBus hlfbFailOracle) 20 0 none).writes :=
  c7_unexpected_status_stops_loop encFailOracle hlfbFailOracle none none 3 20 20
    (by norm_num) (by norm_num) (by norm_num) (by decide) (by decide) (by decide) (by decide)

-- ### Claim C8

theorem encChunkLoop_invariant {σ : Type} (B : Bus σ) (total : ℕ) (h4t : 4 ∣ total) :
    ∀ (d offset : ℕ) (s : σ), total - offset = d → 4 ∣ offset → offset ≤ total →
      (∀ w ∈ (encChunkLoop B total offset s).writes,
        ∃ o, 4 ∣ o ∧ o < total ∧ w = encChunkReq o) ∧
      4 ∣ (encChunkLoop B total offset s).finalOffset ∧
      (encChunkLoop B total offset s).finalOffset ≤ total ∧
      ((encChunkLoop B total offset s).err = none →
        (encChunkLoop B total offset s).finalOffset = total) ∧
      (∀ k, (encChunkLoop B total offset s).err = some k →
        (encChunkLoop B total offset s).finalOffset = k ∧ k < total ∧ 4 ∣ k) := by
  intro d
  induction d using Nat.strong_induction_on with
  | _ d ih =>
    intro offset s hd h4o hle
    by_cases ho : offset < total
    · simp only [encChunkLoop_step B total offset s ho]
      by_cases hs : ((B.read_i2c_block_data (B.write_i2c_block_data s PICO2_ADDR
          CMD_READ_CHUNK [offset &&& 0xFF, (offset >>> 8) &&& 0xFF])
          PICO2_ADDR 0 6).1.headD 0) = STATUS_CHUNK
      · rw [if_pos hs]
        have hstep : offset + 4 ≤ total := by omega
        obtain ⟨w1, w2, w3, w4, w5⟩ := ih (total - (offset + 4)) (by omega) (offset + 4)
          ((B.read_i2c_block_data (B.write_i2c_block_data s PICO2_ADDR CMD_READ_CHUNK
            [offset &&& 0xFF, (offset >>> 8) &&& 0xFF]) PICO2_ADDR 0 6).2)
          rfl (by omega) hstep
        refine ⟨?_, w2, w3, w4, w5⟩
        intro w hw
        rcases List.mem_cons.mp hw with hw0 | hwrest
        · exact ⟨offset, h4o, ho, by rw [hw0]; rfl⟩
        · exact w1 w hwrest
      · rw [if_neg hs]
        refine ⟨?_, h4o, by show offset ≤ total; omega, ?_, ?_⟩
        · intro w hw
          rcases List.mem_cons.mp hw with hw0 | hwrest
          · exact ⟨offset, h4o, ho, by rw [hw0]; rfl⟩
          · simp at hwrest
        · intro hnone
          simp at hnone
        · intro k hk
          simp only [Option.some.injEq] at hk
          refine ⟨?_, by omega, by rw [← hk]; exact h4o⟩
          show offset = k
          exact hk
    · rw [encChunkLoop_stop B total offset s ho]
      refine ⟨?_, h4o, hle, ?_, ?_⟩
      · intro w hw
        simp at hw
      · intro _
        show offset = total
        omega
      · intro k hk
        simp at hk

theorem hlfbChunkLoop_invariant {σ : Type} (B : Bus σ) (total : ℕ) (h4t : 4 ∣ total) :
    ∀ (d offset : ℕ) (s : σ), total - offset = d → 4 ∣ offset → offset ≤ total →
      (∀ w ∈ (hlfbChunkLoop B total offset s).writes,
        ∃ o, 4 ∣ o ∧ o < total ∧ w = hlfbChunkReq o) ∧
      4 ∣ (hlfbChunkLoop B total offset s).finalOffset ∧
      (hlfbChunkLoop B total offset s).finalOffset ≤ total ∧
      ((hlfbChunkLoop B total offset s).err = none →
        (hlfbChunkLoop B total offset s).finalOffset = total) ∧
      (∀ k, (hlfbChunkLoop B total offset s).err = some k →
        (hlfbChunkLoop B total offset s).finalOffset = k ∧ k < total ∧ 4 ∣ k) := by
  intro d
  induction d using Nat.strong_induction_on with
  | _ d ih =>
    intro offset s hd h4o hle
    by_cases ho : offset < total
    · simp only [hlfbChunkLoop_step B total offset s ho]
      by_cases hs : ((B.read_i2c_block_data (B.write_i2c_block_data s I2C_PICO_ADDR 0
          [CMD_READ_HLFB_CHUNK, offset &&& 0xFF, (offset >>> 8) &&& 0xFF, 0, 0, 0])
          I2C_PICO_ADDR 0 I2C_BUFFER_SIZE).1.headD 0) = STATUS_HLFB_DATA_CHUNK
      · rw [if_pos hs]
        have hstep : offset + 4 ≤ total := by omega
        obtain ⟨w1, w2, w3, w4, w5⟩ := ih (total - (offset + 4)) (by omega) (offset + 4)
          ((B.read_i2c_block_data (B.write_i2c_block_data s I2C_PICO_ADDR 0
            [CMD_READ_HLFB_CHUNK, offset &&& 0xFF, (offset >>> 8) &&& 0xFF, 0, 0, 0])
            I2C_PICO_ADDR 0 I2C_BUFFER_SIZE).2)
          rfl (by omega) hstep
        refine ⟨?_, w2, w3, w4, w5⟩
        intro w hw
        rcases List.mem_cons.mp hw with hw0 | hwrest
        · exact ⟨offset, h4o, ho, by rw [hw0]; rfl⟩
        · exact w1 w hwrest
      · rw [if_neg hs]
        refine ⟨?_, h4o, by show offset ≤ total; omega, ?_, ?_⟩
        · intro w hw
          rcases List.mem_cons.mp hw with hw0 | hwrest
          · exact ⟨offset, h4o, ho, by rw [hw0]; rfl⟩
          · simp at hwrest
        · intro hnone
          simp at hnone
        · intro k hk
          simp only [Option.some.injEq] at hk
          refine ⟨?_, by omega, by rw [← hk]; exact h4o⟩
          show offset = k
          exact hk
    · rw [hlfbChunkLoop_stop B total offset s ho]
      refine ⟨?_, h4o, hle, ?_, ?_⟩
      · intro w hw
        simp at hw
      · intro _
        show offset = total
        omega
      · intro k hk
        simp at hk

/-- C8: for any peripheral behaviour and any total byte count that is a
multiple of 4, both chunk loops only ever request offsets that are
multiples of 4 strictly below the total; the final offset is a multiple
of 4 and never exceeds the total; the loop ends with offset equal to the
total exactly on full success, and on a chunk failure it ends at the
failing offset, which is a multiple of 4 below the total. -/
theorem c8_chunk_transfer_invariants {σ τ : Type} (B : Bus σ) (s : σ) (C : Bus τ) (t : τ)
    (total totalH : ℕ) (h4 : 4 ∣ total) (h4H : 4 ∣ totalH) :
    ((∀ w ∈ (encChunkLoop B total 0 s).writes,
        ∃ o, 4 ∣ o ∧ o < total ∧ w = encChunkReq o) ∧
      4 ∣ (encChunkLoop B total 0 s).finalOffset ∧
      (encChunkLoop B total 0 s).finalOffset ≤ total ∧
      ((encChunkLoop B total 0 s).err = none →
        (encChunkLoop B total 0 s).finalOffset = total) ∧
      (∀ k, (encChunkLoop B total 0 s).err = some k →
        (encChunkLoop B total 0 s).finalOffset = k ∧ k < total ∧ 4 ∣ k)) ∧
    ((∀ w ∈ (hlfbChunkLoop C totalH 0 t).writes,
        ∃ o, 4 ∣ o ∧ o < totalH ∧ w = hlfbChunkReq o) ∧
      4 ∣ (hlfbChunkLoop C totalH 0 t).finalOffset ∧
      (hlfbChunkLoop C totalH 0 t).finalOffset ≤ totalH ∧
      ((hlfbChunkLoop C totalH 0 t).err = none →
        (hlfbChunkLoop C totalH 0 t).finalOffset = totalH) ∧
      (∀ k, (hlfbChunkLoop C totalH 0 t).err = some k →
        (hlfbChunkLoop C totalH 0 t).finalOffset = k ∧ k < totalH ∧ 4 ∣ k)) :=
  ⟨encChunkLoop_invariant B total h4 total 0 s (by omega) ⟨0, rfl⟩ (Nat.zero_le total),
   hlfbChunkLoop_invariant C totalH h4H totalH 0 t (by omega) ⟨0, rfl⟩ (Nat.zero_le totalH)⟩

/-- Witness for C8 on concrete 8-byte transfers against a script
peripheral that serves one good chunk and then fails. -/
theorem c8_witness :
    (4 ∣ (encChunkLoop scriptBus 8 0
        [[0x34, 1, 2, 3, 4, 0], [0x31, 0, 0, 0, 0, 0]]).finalOffset ∧
      (encChunkLoop scriptBus 8 0
        [[0x34, 1, 2, 3, 4, 0], [0x31, 0, 0, 0, 0, 0]]).finalOffset ≤ 8) ∧
    (4 ∣ (hlfbChunkLoop scriptBus 8 0
        [[0x15, 1, 2, 3, 4, 0], [0xFF, 0, 0, 0, 0, 0]]).finalOffset ∧
      (hlfbChunkLoop scriptBus 8 0
        [[0x15, 1, 2, 3, 4, 0], [0xFF, 0, 0, 0, 0, 0]]).finalOffset ≤ 8) := by
  have h := c8_chunk_transfer_invariants scriptBus
    [[0x34, 1, 2, 3, 4, 0], [0x31, 0, 0, 0, 0, 0]] scriptBus
    [[0x15, 1, 2, 3, 4, 0], [0xFF, 0, 0, 0, 0, 0]] 8 8 (by norm_num) (by norm_num)
  exact ⟨⟨h.1.2.1, h.1.2.2.1⟩, ⟨h.2.2.1, h.2.2.2.1⟩⟩

-- ### Claim C9

/-- C9: for a capture run that succeeds in one poll (the peripheral
answers the RECORD_HLFB frame with an HLFB_RECORDED status) and serves
every chunk, capture_and_read_hlfb assembles the total byte count from
status payload bytes 2 and 3 as byte2 OR byte3 shifted left 8 (low byte
first, hypothesis htb), and returns one decoded 32-bit float word per
chunk in original order: sample j is the little-endian word of payload
bytes 1 to 4 of the response for offset 4 j. -/
theorem c9_hlfb_total_and_decode (g : BusWrite → List ℕ) (w0 : Option BusWrite)
    (n : ℤ) (fuel tb : ℕ) (hn : 1 ≤ n ∧ n ≤ 255)
    (hrec : (g (I2C_PICO_ADDR, 0, [CMD_RECORD_HLFB, n.toNat, 0, 0, 0, 0])).headD 0 =
      STATUS_HLFB_RECORDED)
    (htb : (g (I2C_PICO_ADDR, 0, [CMD_RECORD_HLFB, n.toNat, 0, 0, 0, 0])).getD 2 0 |||
      ((g (I2C_PICO_ADDR, 0, [CMD_RECORD_HLFB, n.toNat, 0, 0, 0, 0])).getD 3 0 <<< 8) = tb)
    (h4 : 4 ∣ tb) (h0 : tb ≠ 0)
    (hchunks : ∀ j, j < tb / 4 →
      (g (hlfbChunkReq (4 * j))).headD 0 = STATUS_HLFB_DATA_CHUNK) :
    (capture_and_read_hlfb (funBus g) (fuel + 1) w0 n).outcome =
      .samples ((List.range (tb / 4)).map fun j =>
        hlfbChunkVal (g (hlfbChunkReq (4 * j)))) ∧
    (capture_and_read_hlfb (funBus g) (fuel + 1) w0 n).chunkErr = none := by
  have hpoll : hlfbPoll (funBus g) (fuel + 1) ((funBus g).write_i2c_block_data w0
      I2C_PICO_ADDR 0 [CMD_RECORD_HLFB, n.toNat, 0, 0, 0, 0]) =
      (PollRes.recorded (g (I2C_PICO_ADDR, 0, [CMD_RECORD_HLFB, n.toNat, 0, 0, 0, 0])),
       some (I2C_PICO_ADDR, 0, [CMD_RECORD_HLFB, n.toNat, 0, 0, 0, 0])) := by
    simp only [hlfbPoll]
    have ha : hlfbPollAct (((funBus g).read_i2c_block_data
        ((funBus g).write_i2c_block_data w0 I2C_PICO_ADDR 0
          [CMD_RECORD_HLFB, n.toNat, 0, 0, 0, 0])
        I2C_PICO_ADDR 0 I2C_BUFFER_SIZE).1.headD 0) = .success := by
      show hlfbPollAct
        ((g (I2C_PICO_ADDR, 0, [CMD_RECORD_HLFB, n.toNat, 0, 0, 0, 0])).headD 0) = .success
      rw [hrec]
      decide
    rw [ha]
    rfl
  obtain ⟨l1, l2, l3, l4⟩ := hlfbChunkLoop_funBus_good g (tb / 4) 0 tb
    (some (I2C_PICO_ADDR, 0, [CMD_RECORD_HLFB, n.toNat, 0, 0, 0, 0])) (by omega)
    (fun j hj => by simpa using hchunks j hj)
  unfold capture_and_read_hlfb
  rw [if_pos hn]
  simp only [hpoll, htb]
  rw [if_neg h0]
  constructor
  · show HlfbOutcome.samples _ = _
    rw [l1]
    congr 1
    apply List.map_congr_left
    intro j hj
    simp
  · show (hlfbChunkLoop _ _ _ _).err = none
    exact l2

/-- Witness for C9: a two-sample oracle reporting 8 bytes and serving
chunks [1, 2, 3, 4] and [5, 6, 7, 8]. -/
theorem c9_witness :
    (capture_and_read_hlfb (funBus hlfbOracleTwo) (4 + 1) none 2).outcome =
      .samples ((List.range (8 / 4)).map fun j =>
        hlfbChunkVal (hlfbOracleTwo (hlfbChunkReq (4 * j)))) ∧
    (capture_and_read_hlfb (funBus hlfbOracleTwo) (4 + 1) none 2).chunkErr = none :=
  c9_hlfb_total_and_decode hlfbOracleTwo none 2 4 8 (by norm_num) (by decide) (by decide)
    (by norm_num) (by norm_num) (by decide)
